import Mathlib

/-!
Verification of the AQT tensor quantizer
(`praxis/layers/quantization/aqt.py`, class `TensorQuantizer`).

The quantizer is pure elementwise / per-reduction-group arithmetic on
floating-point tensors.  We embed it over `ℚ` (exact arithmetic):

* the per-element value semantics of `to_quant` (`_pass_through`,
  `jnp.clip`, `jnp.floor`, with `jax.lax.stop_gradient` the identity on
  forward values);
* tensors as flat lists of rationals; for `get_quant_scale` the tensor is
  presented in grouped view: each inner list is one slice over the
  `contract_dims` axes, i.e. the set of elements sharing one scale value
  (`jnp.max(..., axis=contract_dims, keepdims=True)` computes one maximum
  per such slice); shapes are modelled separately by `List ℕ`;
* casts (`astype`) are the identity, and `jnp.finfo(dtype).eps` is an
  abstract parameter `eps`, since the value grid of the output dtype is
  not modelled;
* the gradient semantics needed for the straight-through-estimator claim
  is a forward-mode dual-number evaluator `D` over the same operation
  graph, in which `stop_gradient` and `floor` have derivative zero and
  `max`/`min` follow JAX's tie-splitting JVP rule.
-/

namespace AQT

/-- `jax.lax.stop_gradient`: identity on forward values. -/
def stop_gradient (x : ℚ) : ℚ := x

/-- `jnp.floor`, as a `ℚ → ℚ` map. -/
def floorQ (x : ℚ) : ℚ := (⌊x⌋ : ℚ)

/-- `jnp.clip(x, lo, hi) = minimum(maximum(x, lo), hi)`, elementwise. -/
def clip (x lo hi : ℚ) : ℚ := min (max x lo) hi

/-- `_pass_through(x, fn) = x - stop_gradient(x) + stop_gradient(fn(x))`
(forward-value semantics). -/
def pass_through (x : ℚ) (fn : ℚ → ℚ) : ℚ :=
  x - stop_gradient x + stop_gradient (fn x)

/-- `TensorQuantizer.setup`: the construction-time assertion
`precision is None or precision <= 23`.  `true` means construction
succeeds, `false` means the assertion raises. -/
def setup_valid : Option ℤ → Bool
  | none => true
  | some p => decide (p ≤ 23)

/-- `TensorQuantizer._get_clip_bound`:
`bucket_count = 2.0**precision; bucket_count -= 1.0; bucket_count / 2.0`. -/
def get_clip_bound (p : ℤ) : ℚ := ((2 : ℚ) ^ p - 1) / 2

/-- `TensorQuantizer._safe_clip_bound`:
`cb = _get_clip_bound() - 2.0 ** (-20 + precision)`. -/
def safe_clip_bound (p : ℤ) : ℚ := get_clip_bound p - (2 : ℚ) ^ (-20 + p)

/-- One element of `TensorQuantizer.to_quant`.  `precision = none` is the
disabled branch (`x.astype(dtype)`, a cast, identity here); otherwise
`x` is clipped to the safe bound and then rounded through
`_pass_through(x + 0.5, jnp.floor)`. -/
def to_quant1 (prec : Option ℤ) (x : ℚ) : ℚ :=
  match prec with
  | none => x
  | some p =>
      let cb := safe_clip_bound p
      let x1 := clip x (-cb) cb
      pass_through (x1 + 1/2) floorQ

/-- `TensorQuantizer.to_quant` on a tensor, elementwise over its
flattened data. -/
def to_quant (prec : Option ℤ) (x : List ℚ) : List ℚ :=
  x.map (to_quant1 prec)

/-- `jnp.max(jnp.abs(x), axis=contract_dims, keepdims=True)` on one
reduction slice.  Folding `max` with initial value `0` equals the
maximum of the slice whenever the slice is nonempty, because every
`|a|` is nonnegative (`jnp.max` over an empty axis is an error and is
out of scope). -/
def max_abs (g : List ℚ) : ℚ := (g.map (fun a => |a|)).foldr max 0

/-- Values of `TensorQuantizer.get_quant_scale` in grouped view: one
scale value per reduction slice.  `prec = none` returns the single
broadcast `1` of `jnp.ones(shape=(1,) * x.ndim)`; otherwise
`scale = x_bound / clip_bound`, then either the `stop_scale_gradient`
zero-replacement branch (`jnp.where(scale == 0, 1, scale)`, with
`stop_gradient` invisible on forward values) or the
`scale + jnp.finfo(dtype).eps` branch.  The final `astype(dtype)` cast
is the identity. -/
def get_quant_scale_vals (prec : Option ℤ) (ssg : Bool) (eps : ℚ)
    (groups : List (List ℚ)) : List ℚ :=
  match prec with
  | none => [1]
  | some p =>
      let scales := groups.map (fun g => max_abs g / get_clip_bound p)
      if ssg then scales.map (fun s => if s = 0 then 1 else s)
      else scales.map (fun s => s + eps)

/-- Shape of `jnp.max(..., axis=contract_dims, keepdims=True)`: every
axis in `contract_dims` becomes size `1`, the others keep their size. -/
def keepdims_shape (shape : List ℕ) (contract : List ℕ) : List ℕ :=
  shape.mapIdx (fun i d => if i ∈ contract then 1 else d)

/-- Shape of the tensor returned by `TensorQuantizer.get_quant_scale`:
`jnp.ones(shape=(1,) * x.ndim)` when disabled, the keepdims-reduced
shape of `x` otherwise. -/
def get_quant_scale_shape (prec : Option ℤ) (shape : List ℕ)
    (contract : List ℕ) : List ℕ :=
  match prec with
  | none => List.replicate shape.length 1
  | some _ => keepdims_shape shape contract

/-! ### Forward-mode dual-number semantics, for the gradient claim.

`D` carries a forward value and a tangent (derivative with respect to
the scalar input).  Each primitive of `to_quant` is given its JAX JVP:
`stop_gradient` and `floor` kill the tangent, `max`/`min` select the
tangent of the larger/smaller argument and split it evenly on ties
(JAX's balanced-ties rule for `lax.max`/`lax.min`). -/

/-- Dual number: forward value `v` and tangent `d`. -/
structure D where
  v : ℚ
  d : ℚ
deriving DecidableEq, Repr

/-- Constant (zero tangent). -/
def dconst (c : ℚ) : D := ⟨c, 0⟩

/-- Addition of duals. -/
def dadd (a b : D) : D := ⟨a.v + b.v, a.d + b.d⟩

/-- Subtraction of duals. -/
def dsub (a b : D) : D := ⟨a.v - b.v, a.d - b.d⟩

/-- `stop_gradient`: forward value kept, tangent zeroed. -/
def dstop (a : D) : D := ⟨a.v, 0⟩

/-- `jnp.floor`: piecewise-constant forward value, zero tangent. -/
def dfloor (a : D) : D := ⟨(⌊a.v⌋ : ℚ), 0⟩

/-- `jnp.maximum` with JAX's JVP (balanced ties). -/
def dmax (a b : D) : D :=
  ⟨max a.v b.v,
   if b.v < a.v then a.d else if a.v < b.v then b.d else (a.d + b.d) / 2⟩

/-- `jnp.minimum` with JAX's JVP (balanced ties). -/
def dmin (a b : D) : D :=
  ⟨min a.v b.v,
   if a.v < b.v then a.d else if b.v < a.v then b.d else (a.d + b.d) / 2⟩

/-- `jnp.clip` on duals. -/
def dclip (x : D) (lo hi : ℚ) : D := dmin (dmax x (dconst lo)) (dconst hi)

/-- `_pass_through` on duals. -/
def dpass_through (x : D) (fn : D → D) : D :=
  dadd (dsub x (dstop x)) (dstop (fn x))

/-- `TensorQuantizer.to_quant` at one scalar input, evaluated on dual
numbers with input tangent `1`; `.d` of the result is the derivative of
the output with respect to the input.  The disabled branch is the cast
`x.astype(dtype)`, identity with derivative `1`. -/
def dto_quant1 (prec : Option ℤ) (x : ℚ) : D :=
  match prec with
  | none => ⟨x, 1⟩
  | some p =>
      let cb := safe_clip_bound p
      let x1 := dclip ⟨x, 1⟩ (-cb) cb
      dpass_through (dadd x1 (dconst (1/2))) dfloor

/-! ### Helper lemmas -/

/-- The forward value of `to_quant` at an enabled precision is
round-half-up of the clipped input. -/
theorem to_quant1_some (p : ℤ) (x : ℚ) :
    to_quant1 (some p) x =
      (⌊clip x (-(safe_clip_bound p)) (safe_clip_bound p) + 1/2⌋ : ℚ) := by
  simp [to_quant1, pass_through, stop_gradient, floorQ]

/-- `max_abs` of an all-zero slice is `0`. -/
theorem max_abs_of_all_zero (g : List ℚ) (hz : ∀ a ∈ g, a = 0) :
    max_abs g = 0 := by
  induction g with
  | nil => rfl
  | cons a t ih =>
      have ha : a = 0 := hz a (by simp)
      have ht : ∀ b ∈ t, b = 0 := fun b hb => hz b (by simp [hb])
      simp [max_abs] at ih ⊢
      simp [ha, ih ht]

/-! ### Claims -/

/-- C1: for every tensor `x` and enabled precision `p`, `to_quant`
equals the cast of `floor(clip(x, -safe_bound, safe_bound) + 0.5)`:
clipping to the epsilon-shrunk safe bound first, then deterministic
round-half-up, then the (identity-modelled) cast. -/
theorem c1_to_quant_is_clip_then_round (p : ℤ) (x : List ℚ) :
    to_quant (some p) x =
      x.map (fun a =>
        (⌊clip a (-(safe_clip_bound p)) (safe_clip_bound p) + 1/2⌋ : ℚ)) := by
  simp [to_quant, to_quant1_some]

/-- C3: with `stop_scale_gradient = false` and enabled precision `p`,
every scale value is `max|x| / ((2^p - 1)/2) + eps` (the reduced
maximum over the contract slice, divided by the clip bound, plus the
dtype epsilon), and the clip bound is `(2^p - 1)/2`. -/
theorem c3_scale_formula (p : ℤ) (eps : ℚ) (groups : List (List ℚ)) :
    get_quant_scale_vals (some p) false eps groups =
      groups.map (fun g => max_abs g / (((2 : ℚ) ^ p - 1) / 2) + eps) ∧
    get_clip_bound p = ((2 : ℚ) ^ p - 1) / 2 := by
  refine ⟨?_, rfl⟩
  simp [get_quant_scale_vals, get_clip_bound]

/-- C4: construction with `precision = 24` fails the setup assertion,
`precision = 23` and `precision = None` succeed, and `precision > 23`
is the only validation failure at construction. -/
theorem c4_precision_validation :
    setup_valid (some 24) = false ∧ setup_valid (some 23) = true ∧
    setup_valid none = true ∧
    ∀ p : ℤ, (setup_valid (some p) = false ↔ 23 < p) := by
  refine ⟨rfl, rfl, rfl, fun p => ?_⟩
  simp [setup_valid]

/-- C5: with `precision = None`, `to_quant` is the identity cast and
`get_quant_scale` is the broadcast ones tensor of shape
`(1,) * x.ndim` (one along every axis of `x`). -/
theorem c5_disabled_identity (x : List ℚ) (shape contract : List ℕ)
    (ssg : Bool) (eps : ℚ) (groups : List (List ℚ)) :
    to_quant none x = x ∧
    get_quant_scale_vals none ssg eps groups = [1] ∧
    get_quant_scale_shape none shape contract =
      List.replicate shape.length 1 := by
  refine ⟨?_, rfl, rfl⟩
  rw [to_quant, (rfl : to_quant1 none = fun a => a)]
  exact List.map_id' x

/-- C6: for all-zero reduction slices with `stop_scale_gradient = true`
and an enabled (positive) precision, every scale value is `1` (the
`jnp.where(scale == 0, 1, scale)` replacement). -/
theorem c6_zero_scale_safety (p : ℤ) (_hp : 1 ≤ p) (eps : ℚ)
    (groups : List (List ℚ)) (hz : ∀ g ∈ groups, ∀ a ∈ g, a = 0) :
    get_quant_scale_vals (some p) true eps groups =
      List.replicate groups.length 1 := by
  induction groups with
  | nil => rfl
  | cons g t ih =>
      have hg : max_abs g = 0 := max_abs_of_all_zero g (hz g (by simp))
      have ht : ∀ g1 ∈ t, ∀ a ∈ g1, a = 0 :=
        fun g1 hg1 => hz g1 (by simp [hg1])
      have ihs := ih ht
      simp only [get_quant_scale_vals, List.map_cons, if_true] at ihs ⊢
      simp [hg, ihs, List.replicate_succ]

/-- C6 witness: at `p = 8` and the all-zero grouped tensor
`[[0, 0], [0]]`, the scale is `[1, 1]`. -/
theorem c6_zero_scale_safety_witness :
    ((1 : ℤ) ≤ 8 ∧ (∀ g ∈ [[(0 : ℚ), 0], [0]], ∀ a ∈ g, a = 0)) ∧
    get_quant_scale_vals (some 8) true 0 [[(0 : ℚ), 0], [0]] =
      List.replicate 2 1 :=
  ⟨⟨by norm_num, by intro g hg a ha; fin_cases hg <;> simp_all⟩,
   c6_zero_scale_safety 8 (by norm_num) 0 [[(0 : ℚ), 0], [0]]
     (by intro g hg a ha; fin_cases hg <;> simp_all)⟩

/-- C10: construction succeeds for every non-positive precision (only
the upper bound `precision <= 23` is checked), and `_get_clip_bound`
at `precision = 0` is `0`, the denominator of
`scale = x_bound / clip_bound` in `get_quant_scale` (a division by
zero there). -/
theorem c10_nonpositive_precision_accepted (p : ℤ) (hp : p ≤ 0) :
    setup_valid (some p) = true ∧ get_clip_bound 0 = 0 := by
  constructor
  · simp only [setup_valid, decide_eq_true_eq]
    omega
  · norm_num [get_clip_bound]

/-- C10 witness: precisions `0` and `-1` are accepted and the clip
bound at `0` is `0`. -/
theorem c10_nonpositive_precision_accepted_witness :
    ((0 : ℤ) ≤ 0 ∧ setup_valid (some 0) = true ∧ get_clip_bound 0 = 0) ∧
    ((-1 : ℤ) ≤ 0 ∧ setup_valid (some (-1)) = true) :=
  ⟨⟨le_refl 0, c10_nonpositive_precision_accepted 0 (le_refl 0)⟩,
   ⟨by norm_num,
    (c10_nonpositive_precision_accepted (-1) (by norm_num)).1⟩⟩

/-- C7: for every valid precision `1 <= p <= 23`, the safe clip bound
is `clip_bound - 2^(p-20)` and is strictly below the clip bound, so the
`cb < cb_unsafe` assertion in `_safe_clip_bound` never fires. -/
theorem c7_safe_bound_strictly_below (p : ℤ) (_h1 : 1 ≤ p) (_h2 : p ≤ 23) :
    safe_clip_bound p = get_clip_bound p - (2 : ℚ) ^ (p - 20) ∧
    safe_clip_bound p < get_clip_bound p := by
  have he : (-20 : ℤ) + p = p - 20 := by omega
  constructor
  · rw [safe_clip_bound, he]
  · have hpos : (0 : ℚ) < (2 : ℚ) ^ (-20 + p) := zpow_pos (by norm_num) _
    rw [safe_clip_bound]
    exact sub_lt_self _ hpos

/-- C7 witness: at `p = 8` the epsilon is `2^-12` and the safe bound is
strictly below the clip bound. -/
theorem c7_safe_bound_strictly_below_witness :
    ((1 : ℤ) ≤ 8 ∧ (8 : ℤ) ≤ 23) ∧
    (safe_clip_bound 8 = get_clip_bound 8 - (2 : ℚ) ^ ((8 : ℤ) - 20) ∧
     safe_clip_bound 8 < get_clip_bound 8) :=
  ⟨⟨by norm_num, by norm_num⟩,
   c7_safe_bound_strictly_below 8 (by norm_num) (by norm_num)⟩

/-- C2 (amended): the derivative of `to_quant` with respect to its
input is exactly `1` at every input strictly inside the clip interval
`(-safe_clip_bound, safe_clip_bound)`; outside it the clip zeroes the
derivative, so the claim's "at every point" fails (see the
counterexample). -/
theorem c2_ste_gradient_one_inside_clip (p : ℤ) (x : ℚ)
    (h1 : -(safe_clip_bound p) < x) (h2 : x < safe_clip_bound p) :
    (dto_quant1 (some p) x).d = 1 := by
  simp only [dto_quant1, dclip, dmax, dmin, dconst, dpass_through,
    dadd, dsub, dstop, dfloor]
  simp [max_eq_left h1.le, h1, h2, not_lt_of_lt h1, not_lt_of_lt h2]

/-- C2 counterexample: at `p = 8` and input `200` (beyond the clip
bound), the derivative of `to_quant` is `0`, not `1`. -/
theorem c2_ste_gradient_counterexample :
    (dto_quant1 (some 8) 200).d = 0 ∧ (dto_quant1 (some 8) 200).d ≠ 1 := by
  norm_num [dto_quant1, dclip, dmax, dmin, dconst, dpass_through,
    dadd, dsub, dstop, dfloor, safe_clip_bound, get_clip_bound]

/-- C2 witness: at `p = 8`, the input `3` is strictly inside the clip
interval and the derivative there is `1`. -/
theorem c2_ste_gradient_one_inside_clip_witness :
    (-(safe_clip_bound 8) < 3 ∧ (3 : ℚ) < safe_clip_bound 8) ∧
    (dto_quant1 (some 8) 3).d = 1 :=
  ⟨⟨by norm_num [safe_clip_bound, get_clip_bound],
    by norm_num [safe_clip_bound, get_clip_bound]⟩,
   c2_ste_gradient_one_inside_clip 8 3
     (by norm_num [safe_clip_bound, get_clip_bound])
     (by norm_num [safe_clip_bound, get_clip_bound])⟩

/-- For a positive precision the safe clip bound is nonnegative. -/
theorem safe_clip_bound_nonneg (p : ℤ) (hp : 1 ≤ p) :
    0 ≤ safe_clip_bound p := by
  have h2 : (2 : ℚ) ^ (-20 + p) ≤ (2 : ℚ) ^ (p - 2) :=
    zpow_le_zpow_right₀ (by norm_num) (by omega)
  have hhalf : (2 : ℚ) ^ (p - 2) = (2 : ℚ) ^ (p - 1) / 2 := by
    rw [show p - 2 = p - 1 + -1 by ring, zpow_add₀ (by norm_num : (2:ℚ) ≠ 0),
      zpow_neg_one, div_eq_mul_inv]
  have hone : (1 : ℚ) ≤ (2 : ℚ) ^ (p - 1) := by
    have h := zpow_le_zpow_right₀ (by norm_num : (1:ℚ) ≤ 2)
      (by omega : (0 : ℤ) ≤ p - 1)
    simpa using h
  have hsplit : (2 : ℚ) ^ p = 2 * (2 : ℚ) ^ (p - 1) := by
    have h := zpow_add₀ (by norm_num : (2:ℚ) ≠ 0) 1 (p - 1)
    rw [show (1 : ℤ) + (p - 1) = p by ring] at h
    simpa using h
  simp only [safe_clip_bound, get_clip_bound]
  rw [hhalf] at h2
  linarith

/-- Every output of `to_quant` at a positive precision lies within the
nominal clip interval `[-get_clip_bound, get_clip_bound]`. -/
theorem to_quant1_mem_clip_interval (p : ℤ) (hp : 1 ≤ p) (a : ℚ) :
    -(get_clip_bound p) ≤ to_quant1 (some p) a ∧
      to_quant1 (some p) a ≤ get_clip_bound p := by
  rw [to_quant1_some]
  have h0cb : 0 ≤ safe_clip_bound p := safe_clip_bound_nonneg p hp
  set cb := safe_clip_bound p with hcb
  set c := clip a (-cb) cb with hc
  have hchi : c ≤ cb := min_le_right _ _
  have hclo : -cb ≤ c := le_min (le_max_right _ _) (by linarith)
  have hpm : ((p - 1).toNat : ℤ) = p - 1 := Int.toNat_of_nonneg (by omega)
  set m : ℤ := 2 ^ (p - 1).toNat with hm
  have hmq : (m : ℚ) = (2 : ℚ) ^ (p - 1) := by
    rw [hm]
    push_cast
    rw [← zpow_natCast (2 : ℚ) (p - 1).toNat, hpm]
  have ht : (2 : ℚ) ^ p = 2 * (m : ℚ) := by
    have h := zpow_add₀ (by norm_num : (2:ℚ) ≠ 0) 1 (p - 1)
    rw [show (1 : ℤ) + (p - 1) = p by ring] at h
    rw [hmq]
    simpa using h
  have he : (0 : ℚ) < (2 : ℚ) ^ (-20 + p) := zpow_pos (by norm_num) _
  have hcb2 : cb = (m : ℚ) - 1/2 - (2 : ℚ) ^ (-20 + p) := by
    rw [hcb]
    simp only [safe_clip_bound, get_clip_bound, ht]
    ring
  have hgcb : get_clip_bound p = (2 * (m : ℚ) - 1) / 2 := by
    rw [get_clip_bound, ht]
  set r := ⌊c + 1/2⌋ with hr
  have hrle : (r : ℚ) ≤ c + 1/2 := Int.floor_le _
  have hrgt : c + 1/2 - 1 < (r : ℚ) := Int.sub_one_lt_floor _
  constructor
  · have h5 : -(m : ℚ) < r := by linarith
    have h6 : -m + 1 ≤ r := by
      have h7 : -m < r := by exact_mod_cast h5
      omega
    have h8 : ((-m + 1 : ℤ) : ℚ) ≤ (r : ℚ) := by exact_mod_cast h6
    push_cast at h8
    rw [hgcb]
    linarith
  · have h5 : (r : ℚ) < (m : ℚ) := by linarith
    have h6 : r ≤ m - 1 := by
      have h7 : r < m := by exact_mod_cast h5
      omega
    have h8 : (r : ℚ) ≤ ((m - 1 : ℤ) : ℚ) := by exact_mod_cast h6
    push_cast at h8
    rw [hgcb]
    linarith

/-- C8 counterexample: at `p = 20`, the input `524286.5` (exactly the
safe clip bound) rounds half-up to `524287`, which lies strictly
outside `[-safe_clip_bound, safe_clip_bound]`. -/
theorem c8_range_counterexample :
    to_quant (some 20) [1048573/2] = [(524287 : ℚ)] ∧
    safe_clip_bound 20 < 524287 := by
  constructor
  · norm_num [to_quant, to_quant1, pass_through, stop_gradient, floorQ, clip,
      safe_clip_bound, get_clip_bound]
  · norm_num [safe_clip_bound, get_clip_bound]

/-- C8 (amended): for every enabled positive precision `p`, every
element of `to_quant(x)` lies within the nominal clip interval
`[-get_clip_bound(p), get_clip_bound(p)]` (the epsilon-shrunk safe
interval of the original claim fails for `p >= 20`, see the
counterexample). -/
theorem c8_range_within_clip_bound (p : ℤ) (hp : 1 ≤ p) (x : List ℚ)
    (y : ℚ) (hy : y ∈ to_quant (some p) x) :
    -(get_clip_bound p) ≤ y ∧ y ≤ get_clip_bound p := by
  rw [to_quant] at hy
  obtain ⟨a, -, rfl⟩ := List.mem_map.mp hy
  exact to_quant1_mem_clip_interval p hp a

/-- C8 witness: at `p = 8` the output element `3` of
`to_quant([3])` lies within `[-127.5, 127.5]`. -/
theorem c8_range_within_clip_bound_witness :
    ((1 : ℤ) ≤ 8 ∧ (3 : ℚ) ∈ to_quant (some 8) [3]) ∧
    (-(get_clip_bound 8) ≤ (3 : ℚ) ∧ (3 : ℚ) ≤ get_clip_bound 8) := by
  have hmem : (3 : ℚ) ∈ to_quant (some 8) [3] := by
    have hv : to_quant (some 8) [3] = [3] := by
      norm_num [to_quant, to_quant1, pass_through, stop_gradient, floorQ, clip,
        safe_clip_bound, get_clip_bound]
    rw [hv]
    exact List.mem_singleton.mpr rfl
  exact ⟨⟨by norm_num, hmem⟩, c8_range_within_clip_bound 8 (by norm_num) [3] 3 hmem⟩

/-- Re-quantizing one already-quantized element changes nothing. -/
theorem to_quant1_idem (p : ℤ) (a : ℚ) :
    to_quant1 (some p) (to_quant1 (some p) a) = to_quant1 (some p) a := by
  simp only [to_quant1_some]
  set b := safe_clip_bound p with hb
  set y := clip a (-b) b with hy
  set r := ⌊y + 1/2⌋ with hr
  suffices h : ⌊clip (r : ℚ) (-b) b + 1/2⌋ = r by exact_mod_cast h
  rcases le_or_lt (-b) b with hbb | hbb
  · have hy2 : y ≤ b := min_le_right _ _
    have hy1 : -b ≤ y := le_min (le_max_right _ _) hbb
    rcases le_or_lt (r : ℚ) b with hrb | hrb
    · rcases le_or_lt (-b) (r : ℚ) with hbr | hbr
      · have hclip : clip (r : ℚ) (-b) b = (r : ℚ) := by
          simp only [clip]
          rw [max_eq_left hbr, min_eq_left hrb]
        rw [hclip, Int.floor_int_add]
        norm_num
      · have hclip : clip (r : ℚ) (-b) b = -b := by
          simp only [clip]
          rw [max_eq_right hbr.le, min_eq_left hbb]
        rw [hclip]
        have h1 : ⌊-b + 1/2⌋ ≤ r := by
          rw [hr]
          exact Int.floor_le_floor (by linarith)
        have h2 : r ≤ ⌊-b + 1/2⌋ := by
          have hf : -b + 1/2 - 1 < (⌊-b + 1/2⌋ : ℚ) := Int.sub_one_lt_floor _
          have h3 : (r : ℚ) < (⌊-b + 1/2⌋ : ℚ) + 1 := by linarith
          exact_mod_cast Int.lt_add_one_iff.mp (by exact_mod_cast h3)
        omega
    · have hclip : clip (r : ℚ) (-b) b = b := by
        simp only [clip]
        rw [max_eq_left (by linarith : -b ≤ (r : ℚ)), min_eq_right hrb.le]
      rw [hclip]
      have h1 : r ≤ ⌊b + 1/2⌋ := by
        rw [hr]
        exact Int.floor_le_floor (by linarith)
      have h2 : ⌊b + 1/2⌋ ≤ r := by
        have hf : (⌊b + 1/2⌋ : ℚ) ≤ b + 1/2 := Int.floor_le _
        have h3 : (⌊b + 1/2⌋ : ℚ) < (r : ℚ) + 1 := by linarith
        exact_mod_cast Int.lt_add_one_iff.mp (by exact_mod_cast h3)
      omega
  · have hconst : ∀ z : ℚ, clip z (-b) b = b := by
      intro z
      simp only [clip]
      exact min_eq_right (le_trans hbb.le (le_max_right z (-b)))
    rw [hconst ((r : ℚ)), hr, hy, hconst a]

/-- C9: `to_quant` at a fixed enabled precision is idempotent:
re-quantizing an already-quantized tensor returns it unchanged. -/
theorem c9_to_quant_idempotent (p : ℤ) (x : List ℚ) :
    to_quant (some p) (to_quant (some p) x) = to_quant (some p) x := by
  simp only [to_quant, List.map_map]
  exact List.map_congr_left (fun a _ => to_quant1_idem p a)

end AQT
